import Mathlib

/- Shallow embedding of src/code_reviewer/app/llm_reviewer.py (class LLMReviewer).
   Strings are handled as lists of characters; digits are modelled as the ASCII
   digits 0-9 and line breaks as the plain newline character, which covers every
   input the diff and pyright pipelines feed to these parsers.  Python dicts
   (which preserve insertion order) are modelled as association lists with
   in-place update. -/

/-- Decimal digit character for a value below ten (models the rendering used by
Python for a single decimal digit). -/
def digitChar : Nat → Char
  | 0 => '0'
  | 1 => '1'
  | 2 => '2'
  | 3 => '3'
  | 4 => '4'
  | 5 => '5'
  | 6 => '6'
  | 7 => '7'
  | 8 => '8'
  | 9 => '9'
  | _ => '*'

/-- Accumulator form of the decimal rendering of a natural number; the fuel
argument only bounds the recursion depth and any fuel above the rendered value
yields the same digits. -/
def natToCharsAux (fuel n : Nat) (acc : List Char) : List Char :=
  match fuel with
  | 0 => acc
  | f + 1 =>
    if n < 10 then digitChar (n % 10) :: acc
    else natToCharsAux f (n / 10) (digitChar (n % 10) :: acc)

/-- Decimal representation of a natural number, most significant digit first
(models Python str applied to a non-negative int). -/
def natToChars (n : Nat) : List Char :=
  natToCharsAux (n + 1) n []

/-- Decimal representation as a string. -/
def natToStr (n : Nat) : String :=
  String.mk (natToChars n)

/-- Numeric value of a list of decimal digit characters (models Python int
applied to a string of digits). -/
def decodeDigits (cs : List Char) : Nat :=
  cs.foldl (fun a c => 10 * a + (c.toNat - 48)) 0

/-- Models Python str.isdigit restricted to ASCII: true iff the segment is
non-empty and all characters are decimal digits. -/
def pyIsdigit (cs : List Char) : Bool :=
  !cs.isEmpty && cs.all Char.isDigit

/-- Models Python str.split with a single-character separator: splits at every
occurrence, keeping empty segments. -/
def pySplitChar (c : Char) (cs : List Char) : List (List Char) :=
  match cs with
  | [] => [[]]
  | x :: xs =>
    match pySplitChar c xs with
    | [] => [[]]
    | y :: ys => if x = c then [] :: y :: ys else (x :: y) :: ys

/-- Models Python str.splitlines for newline-separated text: no trailing empty
line is produced for text ending in a newline, and empty text has no lines. -/
def pySplitLines (cs : List Char) : List (List Char) :=
  if cs.isEmpty then []
  else
    let ps := pySplitChar '\n' cs
    if ps.getLast? = some [] then ps.dropLast else ps

/-- Models Python str.strip: removes leading and trailing whitespace. -/
def pyStrip (cs : List Char) : List Char :=
  ((cs.dropWhile Char.isWhitespace).reverse.dropWhile Char.isWhitespace).reverse

/-- Model of re.search for the pattern of llm_reviewer.py line 135: a plus sign,
a greedy non-empty digit group, then optionally a comma and a second greedy
non-empty digit group.  Returns the numeric values of the two groups of the
leftmost match, or none if no position matches. -/
def searchPlus : List Char → Option (Nat × Option Nat)
  | [] => none
  | c :: rest =>
    if c = '+' then
      if (rest.takeWhile Char.isDigit).isEmpty then searchPlus rest
      else
        match rest.dropWhile Char.isDigit with
        | ',' :: rest3 =>
          if (rest3.takeWhile Char.isDigit).isEmpty then
            some (decodeDigits (rest.takeWhile Char.isDigit), none)
          else
            some (decodeDigits (rest.takeWhile Char.isDigit),
              some (decodeDigits (rest3.takeWhile Char.isDigit)))
        | _ => some (decodeDigits (rest.takeWhile Char.isDigit), none)
    else searchPlus rest

/-- One iteration of the loop of _parse_unified_diff_lines (llm_reviewer.py
lines 133-139): a line starting with two at-signs is searched for the new-range
group; on a match the lines start .. start+length-1 are appended. -/
def hunkStep (acc : List Nat) (line : List Char) : List Nat :=
  if "@@".data.isPrefixOf line then
    match searchPlus line with
    | some (start, len) => acc ++ List.range' start (len.getD 1)
    | none => acc
  else acc

/-- The loop of _parse_unified_diff_lines over the already split lines. -/
def parseDiffLines (lines : List (List Char)) : List Nat :=
  lines.foldl hunkStep []

/-- LLMReviewer._parse_unified_diff_lines (llm_reviewer.py lines 122-140). -/
def parse_unified_diff_lines (unified_diff : String) : List Nat :=
  parseDiffLines (pySplitLines unified_diff.data)

/-- Models Python truthiness of the current_file variable of
_get_diff_fallback: None and the empty string are falsy. -/
def pyTruthy : Option (List Char) → Bool
  | none => false
  | some s => !s.isEmpty

/-- Models dict.setdefault(k, []).extend(v): append v to the entry of k,
creating the entry at the end of the map if it is absent. -/
def setdefaultExtend (m : List (String × List Nat)) (k : String) (v : List Nat) :
    List (String × List Nat) :=
  match m with
  | [] => [(k, v)]
  | (k1, v1) :: rest =>
    if k1 = k then (k1, v1 ++ v) :: rest else (k1, v1) :: setdefaultExtend rest k v

/-- Models Python line.split(" b/"): split at every non-overlapping occurrence
of the three-character separator, scanning left to right. -/
def splitOnBSlash : List Char → List Char → List (List Char)
  | ' ' :: 'b' :: '/' :: rest, cur => cur.reverse :: splitOnBSlash rest []
  | c :: rest, cur => splitOnBSlash rest (c :: cur)
  | [], cur => [cur.reverse]

/-- One iteration of the loop of _get_diff_fallback (llm_reviewer.py lines
152-163): a git file header with exactly one " b/" occurrence selects the new
file path; a hunk header with a truthy current file appends its line range to
that file's entry. -/
def fallbackStep (st : Option (List Char) × List (String × List Nat)) (line : List Char) :
    Option (List Char) × List (String × List Nat) :=
  if "diff --git".data.isPrefixOf line then
    match splitOnBSlash line [] with
    | [_, p1] => (some p1, st.2)
    | _ => st
  else if "@@".data.isPrefixOf line && pyTruthy st.1 then
    match searchPlus line with
    | some (start, len) =>
      (st.1, setdefaultExtend st.2 (String.mk (st.1.getD [])) (List.range' start (len.getD 1)))
    | none => st
  else st

/-- LLMReviewer._get_diff_fallback (llm_reviewer.py lines 142-164), with the
diff text already acquired from git passed in as a string. -/
def get_diff_fallback (diff : String) : List (String × List Nat) :=
  ((pySplitLines diff.data).foldl fallbackStep (none, [])).2

/-- Models result.setdefault(line_num, []).append(msg) of parse_pyright_output:
append one message to the entry of a line number, creating the entry at the end
of the map if it is absent. -/
def addIssue (m : List (Nat × List String)) (k : Nat) (msg : String) :
    List (Nat × List String) :=
  match m with
  | [] => [(k, [msg])]
  | (k1, v1) :: rest =>
    if k1 = k then (k1, v1 ++ [msg]) :: rest else (k1, v1) :: addIssue rest k msg

/-- The message assembly of parse_pyright_output lines 273-276: rejoin every
segment from the third onward with colons, strip surrounding whitespace, and
drop a leading " - " token if one is present. -/
def cleanMsg (parts : List (List Char)) : List Char :=
  let m := pyStrip (List.intercalate [':'] parts)
  if " - ".data.isPrefixOf m then m.drop 3 else m

/-- One iteration of the loop of parse_pyright_output (llm_reviewer.py lines
257-280): strip the line, skip it when empty or colon-free, split on colons,
and when there are at least three segments whose second is a digit string that
names an interesting line, record the assembled message for that line. -/
def pyStep (interested : List Nat) (result : List (Nat × List String)) (rawLine : List Char) :
    List (Nat × List String) :=
  let line := pyStrip rawLine
  if line.isEmpty || !(line.contains ':') then result
  else
    match pySplitChar ':' line with
    | _ :: p1 :: p2 :: rest =>
      if pyIsdigit p1 then
        if decodeDigits p1 ∈ interested then
          addIssue result (decodeDigits p1) (String.mk (cleanMsg (p2 :: rest)))
        else result
      else result
    | _ => result

/-- The loop of parse_pyright_output over the already split lines. -/
def parsePyrightLines (interested : List Nat) (lines : List (List Char)) :
    List (Nat × List String) :=
  lines.foldl (pyStep interested) []

/-- LLMReviewer.parse_pyright_output (llm_reviewer.py lines 239-282). -/
def parse_pyright_output (pyright_output : String) (interested_lines : List Nat) :
    List (Nat × List String) :=
  if pyright_output.isEmpty || interested_lines.isEmpty then []
  else parsePyrightLines interested_lines (pySplitLines pyright_output.data)

/-- The shape test a pyright output line must pass for parse_pyright_output to
record it: after stripping it is non-empty, holds a colon, splits into at
least three colon segments, and its second segment is a digit string. -/
def pyLineShape (rawLine : List Char) : Bool :=
  !(pyStrip rawLine).isEmpty && (pyStrip rawLine).contains ':' &&
    (match pySplitChar ':' (pyStrip rawLine) with
     | _ :: p1 :: _ :: _ => pyIsdigit p1
     | _ => false)

/-- Outcome of one per-file pyright invocation in run_pyright_on_files, with
the filesystem and subprocess effects abstracted as an oracle: skipped covers a
file that does not exist or is not a .py or .pyi file (lines 214-218), failed
covers a timeout, a missing pyright binary or an unresolvable path (lines
229-233), ran covers captured output, including the output attached to a
non-zero exit status (lines 220-228). -/
inductive PyrightOutcome where
  | skipped : PyrightOutcome
  | failed : PyrightOutcome
  | ran : String → PyrightOutcome
deriving DecidableEq

/-- LLMReviewer.run_pyright_on_files (llm_reviewer.py lines 187-237), with the
per-file analyzer invocation abstracted by an outcome oracle: a skipped or
failed file is recorded with an empty issue map, a file that ran is recorded
with the parsed and restricted issues. -/
def run_pyright_on_files (env : String → PyrightOutcome) (files : List (String × List Nat)) :
    List (String × List (Nat × List String)) :=
  files.map (fun p =>
    (p.1, match env p.1 with
      | PyrightOutcome.skipped => []
      | PyrightOutcome.failed => []
      | PyrightOutcome.ran out => parse_pyright_output out p.2))

/-- The per-line lookup pyright_results.get(file, {}).get(line_no, []) of
build_prompt line 366, for the inner map. -/
def lookupIssues (fi : List (Nat × List String)) (l : Nat) : List String :=
  (fi.lookup l).getD []

/-- The rendering of one affected line number, build_prompt line 369. -/
def lineLabel (n : Nat) : String :=
  "  Line " ++ natToStr n ++ ":"

/-- The file_has_issues flag of build_prompt lines 363-368: true iff some
changed line of the file has at least one recorded message. -/
def fileHasIssues (fi : List (Nat × List String)) (changed : List Nat) : Bool :=
  changed.any (fun l => !(lookupIssues fi l).isEmpty)

/-- The file_issues list of build_prompt lines 364-371: for each changed line
with messages, its label followed by its indented messages. -/
def fileIssueLines (fi : List (Nat × List String)) : List Nat → List String
  | [] => []
  | l :: rest =>
    (if (lookupIssues fi l).isEmpty then []
     else lineLabel l :: (lookupIssues fi l).map (fun m => "    " ++ m)) ++
      fileIssueLines fi rest

/-- The per-file block of build_prompt lines 362-376: nothing when no changed
line of the file has messages, else the file header, its issue lines and a
blank line. -/
def fileSection (file : String) (changed : List Nat)
    (results : List (String × List (Nat × List String))) : List String :=
  let fi := (results.lookup file).getD []
  if fileHasIssues fi changed then
    ("**File: " ++ file ++ "**") :: (fileIssueLines fi changed ++ [""])
  else []

/-- The body of the static-analysis section of build_prompt: the per-file
blocks in the order of file_diffs. -/
def analysisLines (file_diffs : List (String × List Nat))
    (results : List (String × List (Nat × List String))) : List String :=
  file_diffs.foldl (fun acc p => acc ++ fileSection p.1 p.2 results) []

/-- The has_pyright_issues flag of build_prompt lines 355-357. -/
def hasPyrightIssues (results : List (String × List (Nat × List String))) : Bool :=
  results.any (fun p => p.2.any (fun q => !q.2.isEmpty))

/-- The unconditional leading lines of build_prompt lines 347-352. -/
def basePromptLines (full_diff : String) : List String :=
  ["## Code Changes", "",
   "Here is the git diff showing the actual code changes:",
   "```diff", full_diff, "```", ""]

/-- All lines of the prompt built by build_prompt: the code-changes block,
followed by the static-analysis section only when some file has an issue. -/
def promptLines (file_diffs : List (String × List Nat))
    (results : List (String × List (Nat × List String))) (full_diff : String) : List String :=
  basePromptLines full_diff ++
    (if hasPyrightIssues results then
      "## Static Analysis (Pyright) Issues" :: "" :: analysisLines file_diffs results
    else [])

/-- LLMReviewer.build_prompt (llm_reviewer.py lines 323-378). -/
def build_prompt (file_diffs : List (String × List Nat))
    (results : List (String × List (Nat × List String))) (full_diff : String) : String :=
  String.intercalate "\n" (promptLines file_diffs results full_diff)

/-- A well-formed hunk header as described by the specification: at-signs, the
old range, then a plus sign, the new start, an optional comma and new length,
and closing at-signs. -/
def optComma : Option Nat → List Char
  | none => []
  | some k => ',' :: natToChars k

/-- The header text for given old and new ranges, with omitted lengths
rendered without the comma. -/
def mkHunkHeader (oldStart : Nat) (oldLen : Option Nat) (newStart : Nat) (newLen : Option Nat) :
    List Char :=
  "@@ -".data ++ natToChars oldStart ++ optComma oldLen ++ " +".data ++
    natToChars newStart ++ optComma newLen ++ " @@".data

/-- The number of line numbers a single line contributes to the result of
_parse_unified_diff_lines. -/
def hunkLen (line : List Char) : Nat :=
  if "@@".data.isPrefixOf line then
    match searchPlus line with
    | some (_, len) => len.getD 1
    | none => 0
  else 0

/-- The extracted new-range length of a line, when its search succeeds. -/
def newLenOf (line : List Char) : Option Nat :=
  match searchPlus line with
  | some (_, len) => some (len.getD 1)
  | none => none

/-- The sum of the new-range lengths of all hunk headers of a diff text. -/
def sumNewLens (t : String) : Nat :=
  ((pySplitLines t.data).map hunkLen).sum

/-- A line is benign when its extracted new range does not start at line zero
with a non-zero length; git emits a zero new start only together with an
explicit zero length. -/
def benignHunk (line : List Char) : Bool :=
  match searchPlus line with
  | some (0, len) => len.getD 1 == 0
  | _ => true

/- Facts about the decimal rendering and its decoding. -/

lemma digitChar_isDigit : ∀ k, k < 10 → (digitChar k).isDigit = true := by decide

lemma digitChar_val : ∀ k, k < 10 → (digitChar k).toNat - 48 = k := by decide

lemma natToCharsAux_fuel_eq :
    ∀ (n f1 f2 : Nat) (acc : List Char), n < f1 → n < f2 →
      natToCharsAux f1 n acc = natToCharsAux f2 n acc := by
  intro n
  induction n using Nat.strong_induction_on with
  | _ n ih =>
    intro f1 f2 acc h1 h2
    cases f1 with
    | zero => omega
    | succ g1 =>
      cases f2 with
      | zero => omega
      | succ g2 =>
        by_cases h : n < 10
        · simp [natToCharsAux, h]
        · have hdiv : n / 10 < n := Nat.div_lt_self (by omega) (by omega)
          simp only [natToCharsAux, if_neg h]
          exact ih (n / 10) hdiv g1 g2 _ (by omega) (by omega)

lemma natToCharsAux_append :
    ∀ (n f : Nat) (acc : List Char), n < f →
      natToCharsAux f n acc = natToCharsAux f n [] ++ acc := by
  intro n
  induction n using Nat.strong_induction_on with
  | _ n ih =>
    intro f acc h1
    cases f with
    | zero => omega
    | succ g =>
      by_cases h : n < 10
      · simp [natToCharsAux, h]
      · have hdiv : n / 10 < n := Nat.div_lt_self (by omega) (by omega)
        simp only [natToCharsAux, if_neg h]
        rw [ih (n / 10) hdiv g _ (by omega),
          ih (n / 10) hdiv g [digitChar (n % 10)] (by omega)]
        simp

lemma natToChars_lt (n : Nat) (h : n < 10) : natToChars n = [digitChar (n % 10)] := by
  rw [natToChars]
  simp [natToCharsAux, h]

lemma natToChars_ge (n : Nat) (h : ¬ n < 10) :
    natToChars n = natToChars (n / 10) ++ [digitChar (n % 10)] := by
  have hdiv : n / 10 < n := Nat.div_lt_self (by omega) (by omega)
  rw [natToChars, natToChars]
  calc natToCharsAux (n + 1) n []
      = natToCharsAux n (n / 10) [digitChar (n % 10)] := by
        simp [natToCharsAux, h]
    _ = natToCharsAux (n / 10 + 1) (n / 10) [digitChar (n % 10)] :=
        natToCharsAux_fuel_eq (n / 10) n (n / 10 + 1) _ hdiv (by omega)
    _ = natToCharsAux (n / 10 + 1) (n / 10) [] ++ [digitChar (n % 10)] :=
        natToCharsAux_append (n / 10) (n / 10 + 1) _ (by omega)

lemma natToChars_ne_nil (n : Nat) : natToChars n ≠ [] := by
  by_cases h : n < 10
  · rw [natToChars_lt n h]
    simp
  · rw [natToChars_ge n h]
    simp

lemma natToChars_all_isDigit (n : Nat) : ∀ c ∈ natToChars n, c.isDigit = true := by
  induction n using Nat.strong_induction_on with
  | _ n ih =>
    by_cases h : n < 10
    · rw [natToChars_lt n h]
      intro c hc
      rw [List.mem_singleton] at hc
      subst hc
      exact digitChar_isDigit (n % 10) (Nat.mod_lt n (by omega))
    · rw [natToChars_ge n h]
      intro c hc
      rcases List.mem_append.mp hc with h1 | h2
      · exact ih (n / 10) (Nat.div_lt_self (by omega) (by omega)) c h1
      · rw [List.mem_singleton] at h2
        subst h2
        exact digitChar_isDigit (n % 10) (Nat.mod_lt n (by omega))

lemma decode_natToChars (n : Nat) : decodeDigits (natToChars n) = n := by
  induction n using Nat.strong_induction_on with
  | _ n ih =>
    by_cases h : n < 10
    · rw [natToChars_lt n h]
      show 10 * 0 + ((digitChar (n % 10)).toNat - 48) = n
      rw [digitChar_val (n % 10) (Nat.mod_lt n (by omega))]
      omega
    · rw [natToChars_ge n h]
      show List.foldl (fun a c => 10 * a + (c.toNat - 48)) 0
        (natToChars (n / 10) ++ [digitChar (n % 10)]) = n
      rw [List.foldl_append]
      show 10 * decodeDigits (natToChars (n / 10)) + ((digitChar (n % 10)).toNat - 48) = n
      rw [ih (n / 10) (Nat.div_lt_self (by omega) (by omega)),
        digitChar_val (n % 10) (Nat.mod_lt n (by omega))]
      omega

lemma natToChars_inj {m n : Nat} (h : natToChars m = natToChars n) : m = n := by
  have := congrArg decodeDigits h
  rwa [decode_natToChars, decode_natToChars] at this

lemma natToStr_inj {m n : Nat} (h : natToStr m = natToStr n) : m = n := by
  apply natToChars_inj
  have := congrArg String.data h
  exact this

/- Facts about the model of the hunk-header search. -/

lemma isDigit_ne_plus {ch : Char} (h : ch.isDigit = true) : ch ≠ '+' := by
  intro he
  subst he
  exact absurd h (by decide)

lemma searchPlus_append_no_plus (l1 l2 : List Char) (h : ∀ c ∈ l1, c ≠ '+') :
    searchPlus (l1 ++ l2) = searchPlus l2 := by
  induction l1 with
  | nil => rfl
  | cons c t ih =>
    have hc : c ≠ '+' := h c (List.mem_cons_self c t)
    rw [List.cons_append, searchPlus]
    simp only [if_neg hc]
    exact ih fun a ha => h a (List.mem_cons_of_mem _ ha)

lemma takeWhile_digits (ds : List Char) (c : Char) (t : List Char)
    (hds : ∀ a ∈ ds, Char.isDigit a = true) (hc : Char.isDigit c = false) :
    (ds ++ c :: t).takeWhile Char.isDigit = ds ∧
      (ds ++ c :: t).dropWhile Char.isDigit = c :: t := by
  induction ds with
  | nil =>
    constructor
    · simp [List.takeWhile_cons, hc]
    · simp [List.dropWhile_cons, hc]
  | cons a as ih =>
    have ha : Char.isDigit a = true := hds a (List.mem_cons_self a as)
    have ih2 := ih fun x hx => hds x (List.mem_cons_of_mem _ hx)
    constructor
    · simp [List.takeWhile_cons, ha, ih2.1]
    · simp [List.dropWhile_cons, ha, ih2.2]

lemma searchPlus_plus_num (ds : List Char) (c : Char) (t : List Char)
    (hne : ds ≠ []) (hds : ∀ a ∈ ds, Char.isDigit a = true)
    (hc : Char.isDigit c = false) (hcomma : c ≠ ',') :
    searchPlus ('+' :: (ds ++ c :: t)) = some (decodeDigits ds, none) := by
  have h1 := takeWhile_digits ds c t hds hc
  have hempty : ds.isEmpty = false := by
    cases ds
    · exact absurd rfl hne
    · rfl
  rw [searchPlus, if_pos rfl, h1.1, h1.2, if_neg (by simp [hempty])]
  split
  · rename_i rest3 heq
    exact absurd (List.cons.inj heq).1 hcomma
  · rfl

lemma searchPlus_plus_num_comma (ds es : List Char) (c : Char) (t : List Char)
    (hdsne : ds ≠ []) (hds : ∀ a ∈ ds, Char.isDigit a = true)
    (hesne : es ≠ []) (hes : ∀ a ∈ es, Char.isDigit a = true)
    (hc : Char.isDigit c = false) :
    searchPlus ('+' :: (ds ++ ',' :: (es ++ c :: t))) =
      some (decodeDigits ds, some (decodeDigits es)) := by
  have h1 := takeWhile_digits ds ',' (es ++ c :: t) hds (by decide)
  have h2 := takeWhile_digits es c t hes hc
  have hdempty : ds.isEmpty = false := by
    cases ds
    · exact absurd rfl hdsne
    · rfl
  have heempty : es.isEmpty = false := by
    cases es
    · exact absurd rfl hesne
    · rfl
  rw [searchPlus, if_pos rfl, h1.1, h1.2, if_neg (by simp [hdempty])]
  simp [h2.1, heempty]

lemma mkHunkHeader_split (a c : Nat) (b d : Option Nat) :
    mkHunkHeader a b c d =
      ("@@ -".data ++ natToChars a ++ optComma b ++ [' ']) ++
        ('+' :: (natToChars c ++ optComma d ++ " @@".data)) := by
  have e1 : (" +".data : List Char) = [' '] ++ ['+'] := rfl
  rw [mkHunkHeader, e1]
  simp [List.append_assoc]

lemma optComma_no_plus (b : Option Nat) : ∀ x ∈ optComma b, x ≠ '+' := by
  cases b with
  | none => intro x hx; exact absurd hx (List.not_mem_nil x)
  | some k =>
    intro x hx
    rw [optComma] at hx
    rcases List.mem_cons.mp hx with h1 | h2
    · subst h1; decide
    · exact isDigit_ne_plus (natToChars_all_isDigit k x h2)

lemma searchPlus_mkHunkHeader (a c : Nat) (b d : Option Nat) :
    searchPlus (mkHunkHeader a b c d) = some (c, d) := by
  rw [mkHunkHeader_split]
  rw [searchPlus_append_no_plus]
  · cases d with
    | none =>
      have e2 : (optComma none ++ " @@".data : List Char) = ' ' :: ['@', '@'] := rfl
      rw [show natToChars c ++ optComma none ++ " @@".data
            = natToChars c ++ (' ' :: ['@', '@']) by rw [List.append_assoc, e2]]
      rw [searchPlus_plus_num (natToChars c) ' ' ['@', '@'] (natToChars_ne_nil c)
        (natToChars_all_isDigit c) (by decide) (by decide)]
      rw [decode_natToChars]
    | some k =>
      have e2 : (optComma (some k) : List Char) = ',' :: natToChars k := rfl
      rw [show natToChars c ++ optComma (some k) ++ " @@".data
            = natToChars c ++ (',' :: (natToChars k ++ (' ' :: ['@', '@']))) by
          rw [e2]; simp [List.append_assoc]]
      rw [searchPlus_plus_num_comma (natToChars c) (natToChars k) ' ' ['@', '@']
        (natToChars_ne_nil c) (natToChars_all_isDigit c) (natToChars_ne_nil k)
        (natToChars_all_isDigit k) (by decide)]
      rw [decode_natToChars, decode_natToChars]
  · have hAt : ∀ x ∈ ("@@ -".data : List Char), x ≠ '+' := by decide
    intro x hx
    rcases List.mem_append.mp hx with h1 | h2
    · rcases List.mem_append.mp h1 with h3 | h4
      · rcases List.mem_append.mp h3 with h5 | h6
        · exact hAt x h5
        · exact isDigit_ne_plus (natToChars_all_isDigit a x h6)
      · exact optComma_no_plus b x h4
    · rw [List.mem_singleton] at h2; subst h2; decide

lemma mkHunkHeader_isPrefix (a c : Nat) (b d : Option Nat) :
    "@@".data.isPrefixOf (mkHunkHeader a b c d) = true := by
  rw [mkHunkHeader]
  rfl

lemma hunkStep_mkHunkHeader (acc : List Nat) (a c : Nat) (b d : Option Nat) :
    hunkStep acc (mkHunkHeader a b c d) = acc ++ List.range' c (d.getD 1) := by
  rw [hunkStep, if_pos, searchPlus_mkHunkHeader]
  rw [mkHunkHeader_isPrefix]

/-- C1: for every unified-diff hunk header of the form
at-at -oldStart[,oldLen] +newStart[,newLen] at-at, _parse_unified_diff_lines
appends exactly the integers of the inclusive interval
[newStart, newStart + newLen - 1] for the hunk, with newLen defaulting to 1
when the comma and length are omitted; in particular the header
"@@ -5,2 +10,3 @@" yields changed lines 10, 11, 12 and the header
"@@ -1,1 +1 @@" yields changed line 1. -/
theorem claim_C1_hunk_header_interval :
    (∀ (oldStart newStart : Nat) (oldLen newLen : Option Nat) (acc : List Nat),
        hunkStep acc (mkHunkHeader oldStart oldLen newStart newLen) =
          acc ++ List.range' newStart (newLen.getD 1)) ∧
    parse_unified_diff_lines "@@ -5,2 +10,3 @@" = [10, 11, 12] ∧
    parse_unified_diff_lines "@@ -1,1 +1 @@" = [1] := by
  refine ⟨fun a c b d acc => hunkStep_mkHunkHeader acc a c b d, by decide, by decide⟩

/-- C6: a hunk header whose new-range length is 0 (a pure deletion, such as
"@@ -3,5 +4,0 @@") contributes no line numbers: _parse_unified_diff_lines
produces an empty range for such a hunk and its accumulated list is unchanged
by the line. -/
theorem claim_C6_zero_new_len :
    (∀ (oldStart newStart : Nat) (oldLen : Option Nat) (acc : List Nat),
        hunkStep acc (mkHunkHeader oldStart oldLen newStart (some 0)) = acc) ∧
    parse_unified_diff_lines "@@ -3,5 +4,0 @@" = [] := by
  constructor
  · intro a c b acc
    rw [hunkStep_mkHunkHeader]
    simp [List.range']
  · decide

/- Skip behaviour of the two parsers on malformed lines. -/

lemma hunkStep_malformed (acc : List Nat) (line : List Char)
    (h : "@@".data.isPrefixOf line = false ∨ searchPlus line = none) :
    hunkStep acc line = acc := by
  by_cases hp : "@@".data.isPrefixOf line = true
  · rcases h with h | h
    · rw [hp] at h
      exact absurd h (by decide)
    · rw [hunkStep, if_pos hp, h]
  · rw [hunkStep, if_neg]
    simpa using hp

lemma pyStep_malformed (il : List Nat) (r : List (Nat × List String)) (raw : List Char)
    (h : pyLineShape raw = false) : pyStep il r raw = r := by
  rw [pyLineShape] at h
  by_cases h1 : pyStrip raw = []
  · simp [pyStep, h1]
  · by_cases h2 : ':' ∈ pyStrip raw
    · have h3 : (match pySplitChar ':' (pyStrip raw) with
          | _ :: p1 :: _ :: _ => pyIsdigit p1
          | _ => false) = false := by
        simpa [h1, h2] using h
      simp only [pyStep]
      rw [if_neg (by simp [h1, h2])]
      split
      · rename_i p0 p1 p2 rest heq
        rw [heq] at h3
        simp at h3
        rw [if_neg (by simp [h3])]
      · rfl
    · simp [pyStep, h2]

/- Facts about the in-place map update of parse_pyright_output. -/

lemma mem_addIssue (m : List (Nat × List String)) (k : Nat) (msg : String)
    (q : Nat × List String) (hq : q ∈ addIssue m k msg) : q.1 = k ∨ q ∈ m := by
  induction m with
  | nil =>
    rw [addIssue] at hq
    rw [List.mem_singleton] at hq
    subst hq
    exact Or.inl rfl
  | cons p rest ih =>
    obtain ⟨k1, v1⟩ := p
    rw [addIssue] at hq
    by_cases hk : k1 = k
    · rw [if_pos hk] at hq
      rcases List.mem_cons.mp hq with h1 | h2
      · subst h1
        exact Or.inl hk
      · exact Or.inr (List.mem_cons_of_mem _ h2)
    · rw [if_neg hk] at hq
      rcases List.mem_cons.mp hq with h1 | h2
      · subst h1
        exact Or.inr (List.mem_cons_self _ _)
      · rcases ih h2 with h3 | h4
        · exact Or.inl h3
        · exact Or.inr (List.mem_cons_of_mem _ h4)

lemma addIssue_values_ne_nil (m : List (Nat × List String)) (k : Nat) (msg : String)
    (hm : ∀ q ∈ m, q.2 ≠ []) : ∀ q ∈ addIssue m k msg, q.2 ≠ [] := by
  induction m with
  | nil =>
    intro q hq
    rw [addIssue, List.mem_singleton] at hq
    subst hq
    simp
  | cons p rest ih =>
    obtain ⟨k1, v1⟩ := p
    intro q hq
    rw [addIssue] at hq
    by_cases hk : k1 = k
    · rw [if_pos hk] at hq
      rcases List.mem_cons.mp hq with h1 | h2
      · subst h1
        simp
      · exact hm q (List.mem_cons_of_mem _ h2)
    · rw [if_neg hk] at hq
      rcases List.mem_cons.mp hq with h1 | h2
      · subst h1
        exact hm _ (List.mem_cons_self _ _)
      · exact ih (fun p hp => hm p (List.mem_cons_of_mem _ hp)) q h2

lemma mem_keys_addIssue (m : List (Nat × List String)) (k : Nat) (msg : String)
    (j : Nat) (hj : j ∈ (addIssue m k msg).map Prod.fst) :
    j = k ∨ j ∈ m.map Prod.fst := by
  rcases List.mem_map.mp hj with ⟨q, hq, hqj⟩
  rcases mem_addIssue m k msg q hq with h1 | h2
  · exact Or.inl (hqj ▸ h1.symm ▸ rfl)
  · exact Or.inr (hqj ▸ List.mem_map_of_mem Prod.fst h2)

lemma addIssue_keys_nodup (m : List (Nat × List String)) (k : Nat) (msg : String)
    (hm : (m.map Prod.fst).Nodup) : ((addIssue m k msg).map Prod.fst).Nodup := by
  induction m with
  | nil =>
    rw [addIssue]
    simp
  | cons p rest ih =>
    obtain ⟨k1, v1⟩ := p
    rw [List.map_cons, List.nodup_cons] at hm
    rw [addIssue]
    by_cases hk : k1 = k
    · rw [if_pos hk, List.map_cons, List.nodup_cons]
      exact ⟨hm.1, hm.2⟩
    · rw [if_neg hk, List.map_cons, List.nodup_cons]
      constructor
      · intro hmem
        rcases mem_keys_addIssue rest k msg k1 hmem with h1 | h2
        · exact hk h1
        · exact hm.1 h2
      · exact ih hm.2

/- A generic preservation principle for the fold of parse_pyright_output. -/

lemma foldl_pyStep_invariant (il : List Nat) (P : List (Nat × List String) → Prop)
    (hstep : ∀ r l, P r → P (pyStep il r l)) :
    ∀ (lines : List (List Char)) (r : List (Nat × List String)),
      P r → P (lines.foldl (pyStep il) r) := by
  intro lines
  induction lines with
  | nil => intro r h; exact h
  | cons l rest ih =>
    intro r h
    exact ih _ (hstep r l h)

lemma pyStep_keys_in_interest (il : List Nat) (r : List (Nat × List String)) (l : List Char)
    (h : ∀ q ∈ r, q.1 ∈ il) : ∀ q ∈ pyStep il r l, q.1 ∈ il := by
  intro q hq
  simp only [pyStep] at hq
  split at hq
  · exact h q hq
  · split at hq
    · split at hq
      · split at hq
        · rename_i hdig hmem
          rcases mem_addIssue _ _ _ q hq with h1 | h2
          · rw [h1]
            exact hmem
          · exact h q h2
        · exact h q hq
      · exact h q hq
    · exact h q hq

lemma pyStep_values_ne_nil (il : List Nat) (r : List (Nat × List String)) (l : List Char)
    (h : ∀ q ∈ r, q.2 ≠ []) : ∀ q ∈ pyStep il r l, q.2 ≠ [] := by
  intro q hq
  simp only [pyStep] at hq
  split at hq
  · exact h q hq
  · split at hq
    · split at hq
      · split at hq
        · exact addIssue_values_ne_nil _ _ _ h q hq
        · exact h q hq
      · exact h q hq
    · exact h q hq

lemma pyStep_keys_nodup (il : List Nat) (r : List (Nat × List String)) (l : List Char)
    (h : (r.map Prod.fst).Nodup) : ((pyStep il r l).map Prod.fst).Nodup := by
  simp only [pyStep]
  split
  · exact h
  · split
    · split
      · split
        · exact addIssue_keys_nodup _ _ _ h
        · exact h
      · exact h
    · exact h

/-- C4: the Hunk Parser and the Analyzer Report Parser are total on all text
inputs and never raise: in this embedding both are total functions, every
malformed line (a non-header or searchless line for the diff parser; a blank,
colon-free, short or non-numeric line for the pyright parser) is skipped
without affecting the surrounding lines, and the resulting map is well formed
(no duplicate line-number keys). -/
theorem claim_C4_parsers_skip_malformed :
    (∀ (pre post : List (List Char)) (bad : List Char),
        ("@@".data.isPrefixOf bad = false ∨ searchPlus bad = none) →
        parseDiffLines (pre ++ bad :: post) = parseDiffLines (pre ++ post)) ∧
    (∀ (il : List Nat) (pre post : List (List Char)) (bad : List Char),
        pyLineShape bad = false →
        parsePyrightLines il (pre ++ bad :: post) = parsePyrightLines il (pre ++ post)) ∧
    (∀ (out : String) (il : List Nat),
        ((parse_pyright_output out il).map Prod.fst).Nodup) := by
  refine ⟨?_, ?_, ?_⟩
  · intro pre post bad h
    rw [parseDiffLines, parseDiffLines, List.foldl_append, List.foldl_append,
      List.foldl_cons, hunkStep_malformed _ _ h]
  · intro il pre post bad h
    rw [parsePyrightLines, parsePyrightLines, List.foldl_append, List.foldl_append,
      List.foldl_cons, pyStep_malformed il _ _ h]
  · intro out il
    rw [parse_pyright_output]
    split
    · simp
    · exact foldl_pyStep_invariant il (fun r => (r.map Prod.fst).Nodup)
        (fun r l h => pyStep_keys_nodup il r l h) _ [] (by simp)

/-- Witness for C4: the spec's example line "random text without colons
structure" is skipped by both parsers while the surrounding lines still
parse. -/
theorem claim_C4_witness :
    parseDiffLines
        ("random text without colons structure".data :: ["@@ -1 +7,2 @@".data]) =
      parseDiffLines ["@@ -1 +7,2 @@".data] ∧
    parsePyrightLines [1] ["random text without colons structure".data] =
      parsePyrightLines [1] [] := by
  constructor
  · exact claim_C4_parsers_skip_malformed.1 [] ["@@ -1 +7,2 @@".data]
      "random text without colons structure".data (Or.inl (by decide))
  · exact claim_C4_parsers_skip_malformed.2.1 [1] [] []
      "random text without colons structure".data (by decide)

/-- C9: every line-number key of the map returned by parse_pyright_output maps
to a non-empty list of messages; a key is only ever created when a message is
appended to it. -/
theorem claim_C9_values_nonempty :
    ∀ (out : String) (il : List Nat) (k : Nat) (msgs : List String),
      (k, msgs) ∈ parse_pyright_output out il → msgs ≠ [] := by
  intro out il k msgs hmem
  rw [parse_pyright_output] at hmem
  split at hmem
  · exact absurd hmem (List.not_mem_nil _)
  · have hinv := foldl_pyStep_invariant il (fun r => ∀ q ∈ r, q.2 ≠ [])
      (fun r l h => pyStep_values_ne_nil il r l h) (pySplitLines out.data) [] (by simp)
    exact hinv (k, msgs) hmem

/-- Witness for C9: a concrete pyright line produces a key with a non-empty
message list. -/
theorem claim_C9_witness :
    ((3, ["1 - err"]) ∈ parse_pyright_output "a.py:3:1 - err" [3]) ∧
      (["1 - err"] : List String) ≠ [] := by
  constructor
  · decide
  · exact claim_C9_values_nonempty "a.py:3:1 - err" [3] 3 ["1 - err"] (by decide)

/- Counting the extracted line numbers for C7. -/

lemma hunkStep_length (acc : List Nat) (l : List Char) :
    (hunkStep acc l).length = acc.length + hunkLen l := by
  rw [hunkStep, hunkLen]
  by_cases hp : "@@".data.isPrefixOf l = true
  · rw [if_pos hp, if_pos hp]
    cases hsp : searchPlus l with
    | none => simp
    | some p =>
      obtain ⟨s, len⟩ := p
      simp
  · rw [if_neg hp, if_neg hp]
    simp

lemma foldl_hunkStep_length :
    ∀ (lines : List (List Char)) (acc : List Nat),
      (lines.foldl hunkStep acc).length = acc.length + (lines.map hunkLen).sum := by
  intro lines
  induction lines with
  | nil => intro acc; simp
  | cons l rest ih =>
    intro acc
    rw [List.foldl_cons, ih, hunkStep_length, List.map_cons, List.sum_cons]
    omega

/-- C7: for every family of unified-diff texts all of whose hunk headers have
a non-zero extracted new length, the total number of line numbers extracted by
_parse_unified_diff_lines over all texts (duplicates counted) equals the sum
over all hunk headers of each header's new length. -/
theorem claim_C7_total_count :
    ∀ ts : List String,
      (∀ t ∈ ts, ∀ line ∈ pySplitLines t.data,
        "@@".data.isPrefixOf line = true → newLenOf line ≠ some 0) →
      (ts.map fun t => (parse_unified_diff_lines t).length).sum =
        (ts.map sumNewLens).sum := by
  intro ts _
  have hsingle : ∀ t : String, (parse_unified_diff_lines t).length = sumNewLens t := by
    intro t
    rw [parse_unified_diff_lines, parseDiffLines, foldl_hunkStep_length, sumNewLens]
    simp
  simp [hsingle]

/-- Witness for C7: one addition-only diff text has total extracted count
equal to the sum of its new lengths. -/
theorem claim_C7_witness :
    ((["@@ -5,2 +10,3 @@"] : List String).map
        fun t => (parse_unified_diff_lines t).length).sum =
      ((["@@ -5,2 +10,3 @@"] : List String).map sumNewLens).sum :=
  claim_C7_total_count ["@@ -5,2 +10,3 @@"] (by decide)

/- Positivity of extracted line numbers for C8. -/

lemma range'_pos_of_benign (l : List Char) (s : Nat) (len : Option Nat)
    (hb : benignHunk l = true) (hsp : searchPlus l = some (s, len)) :
    ∀ n ∈ List.range' s (len.getD 1), 0 < n := by
  intro n hn
  cases s with
  | zero =>
    rw [benignHunk, hsp] at hb
    simp at hb
    rw [hb] at hn
    simp at hn
  | succ s2 =>
    rw [List.mem_range'_1] at hn
    omega

lemma hunkStep_pos (acc : List Nat) (l : List Char)
    (hb : "@@".data.isPrefixOf l = true → benignHunk l = true)
    (hacc : ∀ n ∈ acc, 0 < n) : ∀ n ∈ hunkStep acc l, 0 < n := by
  intro n hn
  rw [hunkStep] at hn
  split at hn
  · rename_i hp
    cases hsp : searchPlus l with
    | none => rw [hsp] at hn; exact hacc n hn
    | some p =>
      obtain ⟨s, len⟩ := p
      rw [hsp] at hn
      rcases List.mem_append.mp hn with h1 | h2
      · exact hacc n h1
      · exact range'_pos_of_benign l s len (hb hp) hsp n h2
  · exact hacc n hn

lemma foldl_hunkStep_pos :
    ∀ (lines : List (List Char)) (acc : List Nat),
      (∀ l ∈ lines, "@@".data.isPrefixOf l = true → benignHunk l = true) →
      (∀ n ∈ acc, 0 < n) →
      ∀ n ∈ lines.foldl hunkStep acc, 0 < n := by
  intro lines
  induction lines with
  | nil => intro acc _ hacc; simpa using hacc
  | cons l rest ih =>
    intro acc hb hacc
    rw [List.foldl_cons]
    exact ih _ (fun x hx => hb x (List.mem_cons_of_mem _ hx))
      (hunkStep_pos acc l (hb l (List.mem_cons_self _ _)) hacc)

lemma setdefaultExtend_pos (m : List (String × List Nat)) (k : String) (v : List Nat)
    (hm : ∀ p ∈ m, ∀ n ∈ p.2, 0 < n) (hv : ∀ n ∈ v, 0 < n) :
    ∀ p ∈ setdefaultExtend m k v, ∀ n ∈ p.2, 0 < n := by
  induction m with
  | nil =>
    intro p hp
    rw [setdefaultExtend, List.mem_singleton] at hp
    subst hp
    exact hv
  | cons q rest ih =>
    obtain ⟨k1, v1⟩ := q
    intro p hp
    rw [setdefaultExtend] at hp
    by_cases hk : k1 = k
    · rw [if_pos hk] at hp
      rcases List.mem_cons.mp hp with h1 | h2
      · subst h1
        intro n hn
        rcases List.mem_append.mp hn with h3 | h4
        · exact hm _ (List.mem_cons_self _ _) n h3
        · exact hv n h4
      · exact hm p (List.mem_cons_of_mem _ h2)
    · rw [if_neg hk] at hp
      rcases List.mem_cons.mp hp with h1 | h2
      · subst h1
        exact hm _ (List.mem_cons_self _ _)
      · exact ih (fun q hq => hm q (List.mem_cons_of_mem _ hq)) p h2

lemma fallbackStep_pos (st : Option (List Char) × List (String × List Nat))
    (l : List Char) (hb : "@@".data.isPrefixOf l = true → benignHunk l = true)
    (hst : ∀ p ∈ st.2, ∀ n ∈ p.2, 0 < n) :
    ∀ p ∈ (fallbackStep st l).2, ∀ n ∈ p.2, 0 < n := by
  rw [fallbackStep]
  split
  · split
    · exact hst
    · exact hst
  · split
    · rename_i hcond
      have hp : "@@".data.isPrefixOf l = true := by
        simp only [Bool.and_eq_true] at hcond
        exact hcond.1
      cases hsp : searchPlus l with
      | none => exact hst
      | some q =>
        obtain ⟨s, len⟩ := q
        exact setdefaultExtend_pos st.2 _ _ hst (range'_pos_of_benign l s len (hb hp) hsp)
    · exact hst

lemma foldl_fallbackStep_pos :
    ∀ (lines : List (List Char)) (st : Option (List Char) × List (String × List Nat)),
      (∀ l ∈ lines, "@@".data.isPrefixOf l = true → benignHunk l = true) →
      (∀ p ∈ st.2, ∀ n ∈ p.2, 0 < n) →
      ∀ p ∈ (lines.foldl fallbackStep st).2, ∀ n ∈ p.2, 0 < n := by
  intro lines
  induction lines with
  | nil => intro st _ hst; simpa using hst
  | cons l rest ih =>
    intro st hb hst
    rw [List.foldl_cons]
    exact ih _ (fun x hx => hb x (List.mem_cons_of_mem _ hx))
      (fallbackStep_pos st l (hb l (List.mem_cons_self _ _)) hst)

/-- Counterexample for C8 as stated: on the text "@@ -1 +0 @@" (a shape git
never emits, since a zero new start always comes with an explicit zero length)
_parse_unified_diff_lines extracts the line number 0, which is not strictly
positive. -/
theorem claim_C8_counterexample :
    ¬ (∀ n ∈ parse_unified_diff_lines "@@ -1 +0 @@", 0 < n) := by
  decide

/-- C8 (amended): every line number extracted by _parse_unified_diff_lines or
by the fallback extractor _get_diff_fallback is strictly positive, provided
every accepted hunk header of the input - that is, every line starting with
two at-signs - whose extracted new range starts at 0 has new length 0 (as is
the case for all git-produced diffs, where a pure deletion at the top of a
file is rendered "+0,0"); content lines, which never start with the at-signs,
are unconstrained. -/
theorem claim_C8_positive_lines :
    (∀ t : String,
        (∀ line ∈ pySplitLines t.data,
          "@@".data.isPrefixOf line = true → benignHunk line = true) →
        ∀ n ∈ parse_unified_diff_lines t, 0 < n) ∧
    (∀ diff : String,
        (∀ line ∈ pySplitLines diff.data,
          "@@".data.isPrefixOf line = true → benignHunk line = true) →
        ∀ p ∈ get_diff_fallback diff, ∀ n ∈ p.2, 0 < n) := by
  constructor
  · intro t hb
    rw [parse_unified_diff_lines, parseDiffLines]
    exact foldl_hunkStep_pos (pySplitLines t.data) [] hb (by simp)
  · intro diff hb
    rw [get_diff_fallback]
    exact foldl_fallbackStep_pos (pySplitLines diff.data) (none, []) hb (by simp)

/-- Witness for C8: on a diff text whose only hunk header is benign - and
whose added content line "+x = y+0" contains a plus-zero without being a hunk
header - both extractors only produce strictly positive line numbers, at the
concrete element 10. -/
theorem claim_C8_witness :
    ((10 : Nat) ∈ parse_unified_diff_lines "@@ -5,2 +10,3 @@\n+x = y+0" ∧ (0 : Nat) < 10) ∧
    ((("x.py", [10, 11, 12]) ∈
        get_diff_fallback "diff --git a/x.py b/x.py\n@@ -5,2 +10,3 @@\n+x = y+0") ∧
      (0 : Nat) < 10) := by
  constructor
  · exact ⟨by decide,
      claim_C8_positive_lines.1 "@@ -5,2 +10,3 @@\n+x = y+0" (by decide) 10 (by decide)⟩
  · refine ⟨by decide, ?_⟩
    exact claim_C8_positive_lines.2 "diff --git a/x.py b/x.py\n@@ -5,2 +10,3 @@\n+x = y+0"
      (by decide) ("x.py", [10, 11, 12]) (by decide) 10 (by decide)

/- Disambiguation of the rendered prompt lines for C2. -/

lemma lineLabel_data (n : Nat) :
    (lineLabel n).data =
      ' ' :: ' ' :: 'L' :: 'i' :: 'n' :: 'e' :: ' ' :: (natToChars n ++ [':']) := by
  rw [lineLabel, natToStr, String.data_append, String.data_append]
  simp

lemma lineLabel_inj {m n : Nat} (h : lineLabel m = lineLabel n) : m = n := by
  have hd := congrArg String.data h
  rw [lineLabel_data, lineLabel_data] at hd
  simp only [List.cons.injEq, true_and] at hd
  exact natToChars_inj (List.append_cancel_right hd)

lemma lineLabel_ne_msg (n : Nat) (m : String) : lineLabel n ≠ "    " ++ m := by
  intro h
  have hd := congrArg String.data h
  rw [lineLabel_data, String.data_append,
    show ("    ".data : List Char) = ' ' :: ' ' :: ' ' :: ' ' :: [] from rfl] at hd
  simp at hd

lemma lineLabel_ne_header (n : Nat) (f : String) :
    lineLabel n ≠ "**File: " ++ f ++ "**" := by
  intro h
  have hd := congrArg String.data h
  rw [lineLabel_data, String.data_append, String.data_append,
    show ("**File: ".data : List Char) =
      '*' :: '*' :: 'F' :: 'i' :: 'l' :: 'e' :: ':' :: ' ' :: [] from rfl] at hd
  simp at hd

lemma lineLabel_ne_empty (n : Nat) : lineLabel n ≠ "" := by
  intro h
  have hd := congrArg String.data h
  rw [lineLabel_data, show ("".data : List Char) = [] from rfl] at hd
  simp at hd

lemma mem_fileIssueLines_lineLabel (fi : List (Nat × List String)) :
    ∀ (cl : List Nat) (n : Nat), lineLabel n ∈ fileIssueLines fi cl → n ∈ cl := by
  intro cl
  induction cl with
  | nil =>
    intro n hn
    rw [fileIssueLines] at hn
    exact absurd hn (List.not_mem_nil _)
  | cons l rest ih =>
    intro n hn
    rw [fileIssueLines] at hn
    rcases List.mem_append.mp hn with h1 | h2
    · split at h1
      · exact absurd h1 (List.not_mem_nil _)
      · rcases List.mem_cons.mp h1 with h3 | h4
        · exact (lineLabel_inj h3) ▸ List.mem_cons_self _ _
        · rcases List.mem_map.mp h4 with ⟨m, _, hml⟩
          exact absurd hml.symm (lineLabel_ne_msg n m)
    · exact List.mem_cons_of_mem _ (ih n h2)

/-- C2: no line number ever surfaces outside its interest set: every entry of
the map returned by parse_pyright_output has its key in the caller-supplied
interested_lines, and every line number rendered in a file's block of the
static-analysis section of build_prompt is a member of that file's changed
lines. -/
theorem claim_C2_line_restriction :
    (∀ (out : String) (il : List Nat) (q : Nat × List String),
        q ∈ parse_pyright_output out il → q.1 ∈ il) ∧
    (∀ (file : String) (changed : List Nat)
        (results : List (String × List (Nat × List String))) (n : Nat),
        lineLabel n ∈ fileSection file changed results → n ∈ changed) := by
  constructor
  · intro out il q hq
    rw [parse_pyright_output] at hq
    split at hq
    · exact absurd hq (List.not_mem_nil _)
    · exact foldl_pyStep_invariant il (fun r => ∀ q ∈ r, q.1 ∈ il)
        (fun r l h => pyStep_keys_in_interest il r l h) (pySplitLines out.data) []
        (by simp) q hq
  · intro file changed results n hn
    simp only [fileSection] at hn
    split at hn
    · rcases List.mem_cons.mp hn with h1 | h2
      · exact absurd h1 (lineLabel_ne_header n file)
      · rcases List.mem_append.mp h2 with h3 | h4
        · exact mem_fileIssueLines_lineLabel _ changed n h3
        · rw [List.mem_singleton] at h4
          exact absurd h4 (lineLabel_ne_empty n)
    · exact absurd hn (List.not_mem_nil _)

/-- Witness for C2: the pyright line for line 12 lands on a key inside the
interest set, and the rendered label for line 2 of a.py names a changed
line. -/
theorem claim_C2_witness :
    (((12, ["5 - error: undefined variable 'x'"]) ∈
        parse_pyright_output "src/app.py:12:5 - error: undefined variable 'x'" [12, 20]) ∧
      (12 : Nat) ∈ [12, 20]) ∧
    ((lineLabel 2 ∈ fileSection "a.py" [1, 2, 3] [("a.py", [(2, ["warn"])])]) ∧
      (2 : Nat) ∈ [1, 2, 3]) := by
  refine ⟨⟨by decide, ?_⟩, ⟨by decide, ?_⟩⟩
  · exact claim_C2_line_restriction.1 "src/app.py:12:5 - error: undefined variable 'x'"
      [12, 20] (12, ["5 - error: undefined variable 'x'"]) (by decide)
  · exact claim_C2_line_restriction.2 "a.py" [1, 2, 3] [("a.py", [(2, ["warn"])])] 2
      (by decide)

/-- C5: the Correlator omits silent files and the whole section when empty: a
file whose changed lines carry no messages contributes no block, a result map
with only empty message lists leaves the prompt equal to its unconditional
code-changes lines (no section header), the concrete example mentions only
line 2, and an empty result map produces no analysis section at all. -/
theorem claim_C5_correlator_omission :
    (∀ (file : String) (changed : List Nat)
        (results : List (String × List (Nat × List String))),
        (∀ l ∈ changed, lookupIssues ((results.lookup file).getD []) l = []) →
        fileSection file changed results = []) ∧
    (∀ (file_diffs : List (String × List Nat))
        (results : List (String × List (Nat × List String))) (full_diff : String),
        (∀ p ∈ results, ∀ q ∈ p.2, q.2 = ([] : List String)) →
        promptLines file_diffs results full_diff = basePromptLines full_diff) ∧
    analysisLines [("a.py", [1, 2, 3])] [("a.py", [(2, ["warn"])])] =
      ["**File: a.py**", "  Line 2:", "    warn", ""] ∧
    (∀ (file_diffs : List (String × List Nat)) (full_diff : String),
        promptLines file_diffs [] full_diff = basePromptLines full_diff) := by
  refine ⟨?_, ?_, by decide, ?_⟩
  · intro file changed results h
    simp only [fileSection]
    rw [if_neg]
    intro habs
    rw [fileHasIssues, List.any_eq_true] at habs
    obtain ⟨l, hl, hbl⟩ := habs
    rw [h l hl] at hbl
    simp at hbl
  · intro fd results d h
    rw [promptLines, if_neg]
    · simp
    · intro habs
      rw [hasPyrightIssues, List.any_eq_true] at habs
      obtain ⟨p, hp, hp2⟩ := habs
      rw [List.any_eq_true] at hp2
      obtain ⟨q, hq, hq2⟩ := hp2
      rw [h p hp q hq] at hq2
      simp at hq2
  · intro fd d
    rw [promptLines]
    simp [hasPyrightIssues]

/-- Witness for C5: a file absent from the result map contributes no block,
and a result map whose only entry has an empty message list yields a prompt
with no static-analysis section. -/
theorem claim_C5_witness :
    fileSection "b.py" [1] [] = [] ∧
    promptLines [("a.py", [1])] [("a.py", [(2, ([] : List String))])] "" =
      basePromptLines "" := by
  constructor
  · exact claim_C5_correlator_omission.1 "b.py" [1] [] (by decide)
  · exact claim_C5_correlator_omission.2.1 [("a.py", [1])]
      [("a.py", [(2, ([] : List String))])] "" (by decide)

/-- C3 (evaluation at the failing input): parse_pyright_output keeps the
column field and the separator inside the message, because the colon split
leaves them in the third segment and the startswith(" - ") cleanup can never
fire on an already stripped message; the interest-set restriction itself works
as claimed. -/
theorem claim_C3_code_evaluation :
    parse_pyright_output "src/app.py:12:5 - error: undefined variable 'x'" [12, 20] =
      [(12, ["5 - error: undefined variable 'x'"])] ∧
    parse_pyright_output "src/app.py:12:5 - error: undefined variable 'x'" [20] = [] := by
  constructor
  · decide
  · decide

/-- C10: run_pyright_on_files returns a map whose key list is exactly the key
list of the input map, and a file whose invocation is skipped or fails is
recorded with an empty issue map rather than dropped. -/
theorem claim_C10_key_preservation :
    ∀ (env : String → PyrightOutcome) (files : List (String × List Nat)),
      ((run_pyright_on_files env files).map Prod.fst = files.map Prod.fst) ∧
      (∀ (f : String) (ls : List Nat), (f, ls) ∈ files →
        (env f = PyrightOutcome.skipped ∨ env f = PyrightOutcome.failed) →
        (f, ([] : List (Nat × List String))) ∈ run_pyright_on_files env files) := by
  intro env files
  constructor
  · rw [run_pyright_on_files, List.map_map]
    rfl
  · intro f ls hmem hout
    rw [run_pyright_on_files]
    refine List.mem_map.mpr ⟨(f, ls), hmem, ?_⟩
    rcases hout with h | h <;> simp [h]

/-- Witness for C10: with every invocation skipped, the single input file
keeps its key and is mapped to the empty issue map. -/
theorem claim_C10_witness :
    (run_pyright_on_files (fun _ => PyrightOutcome.skipped) [("a.py", [1])]).map Prod.fst =
      ["a.py"] ∧
    ("a.py", ([] : List (Nat × List String))) ∈
      run_pyright_on_files (fun _ => PyrightOutcome.skipped) [("a.py", [1])] := by
  constructor
  · exact (claim_C10_key_preservation (fun _ => PyrightOutcome.skipped) [("a.py", [1])]).1
  · exact (claim_C10_key_preservation (fun _ => PyrightOutcome.skipped) [("a.py", [1])]).2
      "a.py" [1] (by decide) (Or.inl rfl)
